import Mathlib

/-!
Shallow embedding of LUNA's core stream definitions
(`src/luna/gateware/usb/stream.py`), centred on the
`USBOutStreamBoundaryDetector` elaboratable: a three-state synchronous FSM
(`WAIT_FOR_FIRST_BYTE` → `RECEIVE_AND_TRANSMIT` → `OUTPUT_STROBES`) that
buffers one byte of an incoming USB OUT stream in order to reconstruct
`first`/`last` packet boundaries, and realigns the `complete`/`invalid`
status strobes to follow the packet's last byte.

The hardware semantics modelled here: all registered signals are fields of
an explicit state record; one clock step evaluates the FSM's active state,
where every right-hand side reads the *current* (pre-edge) value of a
signal, and when several synchronous assignments target the same signal in
one step, the last one wins.  All `Signal()` registers reset to zero.
8-bit signals truncate on write (modelled with `% 256`).
-/

namespace Luna

/-- The three FSM states of `USBOutStreamBoundaryDetector.elaborate`. -/
inductive FsmState where
  | waitForFirstByte
  | receiveAndTransmit
  | outputStrobes
deriving DecidableEq, Repr

/-- All registered signals of the boundary detector: the processed
(output) stream's `valid`/`next`/`payload`, the `first`/`last` boundary
outputs, the internal single-byte buffer with its `is_first_byte` flag, the
sticky `buffered_complete`/`buffered_invalid` accumulators, the
`complete_out`/`invalid_out` strobe outputs, and the FSM state register. -/
structure DetectorState where
  fsm : FsmState
  out_valid : Bool
  out_next : Bool
  out_payload : Nat
  first : Bool
  last : Bool
  buffered_byte : Nat
  is_first_byte : Bool
  buffered_complete : Bool
  buffered_invalid : Bool
  complete_out : Bool
  invalid_out : Bool
deriving DecidableEq, Repr

/-- The combinational inputs sampled on one clock step: the unprocessed
(input) stream's `valid`/`next`/`payload` and the `complete_in`/`invalid_in`
status inputs. -/
structure DetectorInput where
  in_valid : Bool
  in_next : Bool
  in_payload : Nat
  complete_in : Bool
  invalid_in : Bool
deriving DecidableEq, Repr

/-- One synchronous clock step of `USBOutStreamBoundaryDetector.elaborate`,
translated state by state from the FSM body (`stream.py` lines 165-250). -/
def step (s : DetectorState) (i : DetectorInput) : DetectorState :=
  match s.fsm with
  | .waitForFirstByte =>
    -- WAIT_FOR_FIRST_BYTE: clear all outputs and sticky bits; on
    -- `valid & next`, capture the first byte and move to RECEIVE_AND_TRANSMIT.
    let s1 := { s with
      out_valid := false,
      first := false, last := false, out_next := false,
      buffered_complete := false, buffered_invalid := false,
      complete_out := false, invalid_out := false }
    if i.in_valid && i.in_next then
      { s1 with
        buffered_byte := i.in_payload % 256,
        is_first_byte := true,
        fsm := .receiveAndTransmit }
    else
      s1
  | .receiveAndTransmit =>
    -- RECEIVE_AND_TRANSMIT: mark the output stream valid, accumulate the
    -- sticky complete/invalid bits, emit the buffered byte on each new
    -- input byte, and on deactivation emit the final byte with `last`.
    let s1 := { s with
      out_valid := true, out_next := false,
      buffered_complete := s.buffered_complete || i.complete_in,
      buffered_invalid := s.buffered_invalid || i.invalid_in }
    let s2 :=
      if i.in_valid && i.in_next then
        { s1 with
          out_payload := s.buffered_byte,
          out_next := true,
          first := s.is_first_byte,
          buffered_byte := i.in_payload % 256,
          is_first_byte := false }
      else
        s1
    if !i.in_valid then
      { s2 with
        out_payload := s.buffered_byte,
        out_next := true,
        first := s.is_first_byte,
        last := true,
        fsm := .outputStrobes }
    else
      s2
  | .outputStrobes =>
    -- OUTPUT_STROBES: clear the data strobes and emit the buffered
    -- complete/invalid strobes; return to WAIT_FOR_FIRST_BYTE.
    { s with
      first := false, last := false, out_next := false,
      complete_out := s.buffered_complete,
      invalid_out := s.buffered_invalid,
      fsm := .waitForFirstByte }

/-- The reset state: every `Signal()` resets to zero, and the FSM starts in
its first declared state, `WAIT_FOR_FIRST_BYTE`. -/
def initState : DetectorState where
  fsm := .waitForFirstByte
  out_valid := false
  out_next := false
  out_payload := 0
  first := false
  last := false
  buffered_byte := 0
  is_first_byte := false
  buffered_complete := false
  buffered_invalid := false
  complete_out := false
  invalid_out := false

/-- Run the detector over a list of per-step inputs. -/
def run (s : DetectorState) (inputs : List DetectorInput) : DetectorState :=
  inputs.foldl step s

/-- The successive states reached after each input step (one state per
input, in order). -/
def states (s : DetectorState) : List DetectorInput → List DetectorState
  | [] => []
  | i :: rest => step s i :: states (step s i) rest

/-- The externally observable outputs of one state: the processed stream's
`valid`/`next`/`payload`, the `first`/`last` markers and the two status
strobe outputs. -/
structure ProcObs where
  out_valid : Bool
  out_next : Bool
  first : Bool
  last : Bool
  payload : Nat
  complete_out : Bool
  invalid_out : Bool
deriving DecidableEq, Repr

/-- Projection of a detector state onto its observable outputs. -/
def proj (s : DetectorState) : ProcObs :=
  ⟨s.out_valid, s.out_next, s.first, s.last, s.out_payload,
   s.complete_out, s.invalid_out⟩

/-- Default (all-clear) observation, used with `List.getD`. -/
def obsDefault : ProcObs := ⟨false, false, false, false, 0, false, false⟩

/-- The input presenting one payload byte: `valid` and `next` asserted,
carrying the byte and the status inputs of that step. -/
def feedInput (b : Nat) (c v : Bool) : DetectorInput := ⟨true, true, b, c, v⟩

/-- The deactivation step ending a packet: `valid` (and `next`) low, with
the status inputs of that step. -/
def deactInput (c v : Bool) : DetectorInput := ⟨false, false, 0, c, v⟩

/-- A fully idle input step. -/
def idleInput : DetectorInput := ⟨false, false, 0, false, false⟩

/-- The canonical drive for one packet: one `feedInput` per element (byte
together with that step's `complete_in`/`invalid_in`) on consecutive
steps, then the deactivation step, then one idle step during which the
machine sits in `OUTPUT_STROBES` and emits the strobes. -/
def packetDrive (bytes : List (Nat × Bool × Bool)) (endC endV : Bool) :
    List DetectorInput :=
  bytes.map (fun x => feedInput x.1 x.2.1 x.2.2) ++ [deactInput endC endV, idleInput]

/-- Tag a list of payload bytes with de-asserted status inputs. -/
def plainBytes (bs : List Nat) : List (Nat × Bool × Bool) :=
  bs.map (fun b => (b, false, false))

/-- Expected observation trace of the RECEIVE_AND_TRANSMIT loop, started
with first-flag `f`, buffered byte `pending`, sticky accumulators
`accC`/`accV`, and the remaining inputs `bytes` followed by a deactivation
step carrying `endC`/`endV` and one idle step: one emission per remaining
byte, then the final emission tagged `last`, then the strobe step. -/
def streamObs (f : Bool) (pending : Nat) (bytes : List (Nat × Bool × Bool))
    (endC endV accC accV : Bool) : List ProcObs :=
  match bytes with
  | [] =>
      [⟨true, true, f, true, pending, false, false⟩,
       ⟨true, false, false, false, pending, accC || endC, accV || endV⟩]
  | x :: rest =>
      ⟨true, true, f, false, pending, false, false⟩ ::
        streamObs false (x.1 % 256) rest endC endV (accC || x.2.1) (accV || x.2.2)

/-- The full detector state at the end of the same run: the machine is back
in `WAIT_FOR_FIRST_BYTE`, the output stream is still marked valid, the last
byte sits in the buffer and on the output payload, and the strobe outputs
carry the accumulated sticky bits. -/
def drainFinal (f : Bool) (pending : Nat) (bytes : List (Nat × Bool × Bool))
    (endC endV accC accV : Bool) : DetectorState :=
  match bytes with
  | [] =>
      { fsm := .waitForFirstByte
        out_valid := true
        out_next := false
        out_payload := pending
        first := false
        last := false
        buffered_byte := pending
        is_first_byte := f
        buffered_complete := accC || endC
        buffered_invalid := accV || endV
        complete_out := accC || endC
        invalid_out := accV || endV }
  | x :: rest =>
      drainFinal false (x.1 % 256) rest endC endV (accC || x.2.1) (accV || x.2.2)

theorem drainFinal_fsm (f : Bool) (pending : Nat)
    (bytes : List (Nat × Bool × Bool)) (endC endV accC accV : Bool) :
    (drainFinal f pending bytes endC endV accC accV).fsm = .waitForFirstByte := by
  induction bytes generalizing f pending accC accV with
  | nil => rfl
  | cons x rest ih => exact ih _ _ _ _

/-- The RECEIVE_AND_TRANSMIT loop, run from any state `s` in that FSM state
with `last` and both strobe outputs clear, over the remaining bytes, the
deactivation step and one idle step: the observation trace is `streamObs`
and the final state is `drainFinal`. -/
theorem recv_run (s : DetectorState) (h : s.fsm = .receiveAndTransmit)
    (hl : s.last = false) (hc : s.complete_out = false) (hv : s.invalid_out = false)
    (bytes : List (Nat × Bool × Bool)) (endC endV : Bool) :
    (states s (bytes.map (fun x => feedInput x.1 x.2.1 x.2.2)
        ++ [deactInput endC endV, idleInput])).map proj
      = streamObs s.is_first_byte s.buffered_byte bytes endC endV
          s.buffered_complete s.buffered_invalid
    ∧ run s (bytes.map (fun x => feedInput x.1 x.2.1 x.2.2)
        ++ [deactInput endC endV, idleInput])
      = drainFinal s.is_first_byte s.buffered_byte bytes endC endV
          s.buffered_complete s.buffered_invalid := by
  induction bytes generalizing s with
  | nil =>
      constructor
      · simp [states, run, step, h, hl, hc, hv, streamObs, proj,
              deactInput, idleInput]
      · simp [states, run, step, h, hl, hc, hv, drainFinal,
              deactInput, idleInput]
  | cons x rest ih =>
      have hstep : step s (feedInput x.1 x.2.1 x.2.2) =
          { s with
            out_valid := true, out_next := true,
            out_payload := s.buffered_byte,
            first := s.is_first_byte,
            buffered_byte := x.1 % 256,
            is_first_byte := false,
            buffered_complete := s.buffered_complete || x.2.1,
            buffered_invalid := s.buffered_invalid || x.2.2 } := by
        simp [step, h, feedInput]
      have ih' := ih ({ s with
            out_valid := true, out_next := true,
            out_payload := s.buffered_byte,
            first := s.is_first_byte,
            buffered_byte := x.1 % 256,
            is_first_byte := false,
            buffered_complete := s.buffered_complete || x.2.1,
            buffered_invalid := s.buffered_invalid || x.2.2 })
          h hl hc hv
      constructor
      · simp only [List.map_cons, List.cons_append, states, hstep, streamObs]
        refine List.cons_eq_cons.mpr ⟨?_, ?_⟩
        · simp [proj, hl, hc, hv]
        · simpa using ih'.1
      · simp only [List.map_cons, List.cons_append, run, List.foldl_cons, hstep,
                   drainFinal]
        simpa [run] using ih'.2

/-- A whole packet, driven from any state sitting in `WAIT_FOR_FIRST_BYTE`:
the first byte's step produces no output (and the first byte's status
inputs are discarded by the WAIT state's unconditional clears); the rest of
the run is the RECEIVE_AND_TRANSMIT loop started on the captured byte. -/
theorem packet_run (s : DetectorState) (h : s.fsm = .waitForFirstByte)
    (b0 : Nat) (c0 v0 : Bool) (rest : List (Nat × Bool × Bool)) (endC endV : Bool) :
    (states s (packetDrive ((b0, c0, v0) :: rest) endC endV)).map proj
      = ⟨false, false, false, false, s.out_payload, false, false⟩ ::
          streamObs true (b0 % 256) rest endC endV false false
    ∧ run s (packetDrive ((b0, c0, v0) :: rest) endC endV)
      = drainFinal true (b0 % 256) rest endC endV false false := by
  have hstep : step s (feedInput b0 c0 v0) =
      { s with
        out_valid := false,
        first := false, last := false, out_next := false,
        buffered_complete := false, buffered_invalid := false,
        complete_out := false, invalid_out := false,
        buffered_byte := b0 % 256,
        is_first_byte := true,
        fsm := .receiveAndTransmit } := by
    simp [step, h, feedInput]
  have hr := recv_run ({ s with
        out_valid := false,
        first := false, last := false, out_next := false,
        buffered_complete := false, buffered_invalid := false,
        complete_out := false, invalid_out := false,
        buffered_byte := b0 % 256,
        is_first_byte := true,
        fsm := .receiveAndTransmit })
      rfl rfl rfl rfl rest endC endV
  constructor
  · simp only [packetDrive, List.map_cons, List.cons_append, states, hstep]
    refine List.cons_eq_cons.mpr ⟨?_, ?_⟩
    · simp [proj]
    · simpa using hr.1
  · simp only [packetDrive, List.map_cons, List.cons_append, run,
               List.foldl_cons, hstep]
    simpa [run] using hr.2

theorem states_append (s : DetectorState) (a b : List DetectorInput) :
    states s (a ++ b) = states s a ++ states (run s a) b := by
  induction a generalizing s with
  | nil => simp [states, run]
  | cons i rest ih => simp [states, run, List.foldl_cons, ih]

theorem run_append (s : DetectorState) (a b : List DetectorInput) :
    run s (a ++ b) = run (run s a) b :=
  List.foldl_append ..

/-- Closed form for the `j`-th entry of `streamObs`: entries `0` through
`bytes.length` are emissions carrying the delayed payload sequence, with
`first` possible only at entry 0 and `last` exactly at entry
`bytes.length`; entry `bytes.length + 1` is the strobe step, carrying the
ORed sticky bits. -/
def obsAt (f : Bool) (pending : Nat) (bytes : List (Nat × Bool × Bool))
    (endC endV accC accV : Bool) (j : Nat) : ProcObs :=
  if j ≤ bytes.length then
    ⟨true, true, f && decide (j = 0), decide (j = bytes.length),
     (pending :: bytes.map (fun x => x.1 % 256)).getD j 0, false, false⟩
  else
    ⟨true, false, false, false,
     (pending :: bytes.map (fun x => x.1 % 256)).getD bytes.length 0,
     bytes.foldl (fun a x => a || x.2.1) accC || endC,
     bytes.foldl (fun a x => a || x.2.2) accV || endV⟩

theorem streamObs_length (f : Bool) (pending : Nat)
    (bytes : List (Nat × Bool × Bool)) (endC endV accC accV : Bool) :
    (streamObs f pending bytes endC endV accC accV).length = bytes.length + 2 := by
  induction bytes generalizing f pending accC accV with
  | nil => rfl
  | cons x rest ih => simp [streamObs, ih]

theorem streamObs_getD (f : Bool) (pending : Nat)
    (bytes : List (Nat × Bool × Bool)) (endC endV accC accV : Bool)
    (j : Nat) (hj : j < bytes.length + 2) :
    (streamObs f pending bytes endC endV accC accV).getD j obsDefault
      = obsAt f pending bytes endC endV accC accV j := by
  induction bytes generalizing f pending accC accV j with
  | nil =>
      match j with
      | 0 => simp [streamObs, obsAt]
      | 1 => simp [streamObs, obsAt]
      | (n + 2) => simp at hj
  | cons x rest ih =>
      match j with
      | 0 => simp [streamObs, obsAt]
      | (j + 1) =>
          have hj' : j < rest.length + 2 := by
            simpa using hj
          rw [streamObs, List.getD_cons_succ, ih _ _ _ _ _ hj']
          by_cases hle : j ≤ rest.length
          · have h2 : j + 1 ≤ (x :: rest).length := by
              simp only [List.length_cons]; omega
            simp [obsAt, hle, h2, List.getD_cons_succ, decide_eq_decide]
            try omega
          · have h2 : ¬ (j + 1 ≤ (x :: rest).length) := by
              simp only [List.length_cons]; omega
            simp [obsAt, hle, h2, List.getD_cons_succ]

/-- The expected sequence of *emitted* elements (entries of the trace whose
output `advance` is asserted) for a packet whose first emitted payload is
`pending`: one entry per element, `first` only on the head (when `f`),
`last` only on the final entry. -/
def expectedEmissions (f : Bool) (pending : Nat) :
    List (Nat × Bool × Bool) → List ProcObs
  | [] => [⟨true, true, f, true, pending, false, false⟩]
  | x :: rest =>
      ⟨true, true, f, false, pending, false, false⟩ ::
        expectedEmissions false (x.1 % 256) rest

theorem streamObs_filter (f : Bool) (pending : Nat)
    (bytes : List (Nat × Bool × Bool)) (endC endV accC accV : Bool) :
    (streamObs f pending bytes endC endV accC accV).filter (fun o => o.out_next)
      = expectedEmissions f pending bytes := by
  induction bytes generalizing f pending accC accV with
  | nil => simp [streamObs, expectedEmissions, List.filter]
  | cons x rest ih => simp [streamObs, expectedEmissions, List.filter, ih]

theorem expectedEmissions_length (f : Bool) (pending : Nat)
    (bytes : List (Nat × Bool × Bool)) :
    (expectedEmissions f pending bytes).length = bytes.length + 1 := by
  induction bytes generalizing f pending with
  | nil => rfl
  | cons x rest ih => simp [expectedEmissions, ih]

theorem expectedEmissions_payloads (f : Bool) (pending : Nat)
    (bytes : List (Nat × Bool × Bool)) :
    (expectedEmissions f pending bytes).map (fun o => o.payload)
      = pending :: bytes.map (fun x => x.1 % 256) := by
  induction bytes generalizing f pending with
  | nil => rfl
  | cons x rest ih => simp [expectedEmissions, ih]

theorem expectedEmissions_first (f : Bool) (pending : Nat)
    (bytes : List (Nat × Bool × Bool)) (j : Nat) :
    ((expectedEmissions f pending bytes).getD j obsDefault).first
      = (f && decide (j = 0)) := by
  induction bytes generalizing f pending j with
  | nil =>
      match j with
      | 0 => simp [expectedEmissions]
      | (j + 1) => simp [expectedEmissions, obsDefault]
  | cons x rest ih =>
      match j with
      | 0 => simp [expectedEmissions]
      | (j + 1) =>
          rw [expectedEmissions, List.getD_cons_succ, ih]
          simp

theorem expectedEmissions_last (f : Bool) (pending : Nat)
    (bytes : List (Nat × Bool × Bool)) (j : Nat) :
    ((expectedEmissions f pending bytes).getD j obsDefault).last
      = decide (j = bytes.length) := by
  induction bytes generalizing f pending j with
  | nil =>
      match j with
      | 0 => simp [expectedEmissions]
      | (j + 1) => simp [expectedEmissions, obsDefault]
  | cons x rest ih =>
      match j with
      | 0 => simp [expectedEmissions]
      | (j + 1) =>
          rw [expectedEmissions, List.getD_cons_succ, ih]
          simp [decide_eq_decide]

/-- The observable trace of a full packet driven from reset. -/
def packetObsTrace (bytes : List (Nat × Bool × Bool)) (endC endV : Bool) :
    List ProcObs :=
  (states initState (packetDrive bytes endC endV)).map proj

/-- The emitted elements of that trace: the entries on which the processed
stream's `advance` (`next`) is asserted. -/
def packetEmissions (bytes : List (Nat × Bool × Bool)) (endC endV : Bool) :
    List ProcObs :=
  (packetObsTrace bytes endC endV).filter (fun o => o.out_next)

theorem getD_map_mod (bs : List Nat) (i : Nat) :
    (bs.map (fun b => b % 256)).getD i 0 = (bs.getD i 0) % 256 := by
  induction bs generalizing i with
  | nil => simp
  | cons b rest ih =>
      match i with
      | 0 => simp
      | (i + 1) =>
          rw [List.map_cons, List.getD_cons_succ, List.getD_cons_succ, ih]

theorem packetObsTrace_plain (b0 : Nat) (bs : List Nat) (endC endV : Bool) :
    packetObsTrace (plainBytes (b0 :: bs)) endC endV
      = ⟨false, false, false, false, 0, false, false⟩ ::
          streamObs true (b0 % 256) (plainBytes bs) endC endV false false := by
  have h := (packet_run initState rfl b0 false false (plainBytes bs) endC endV).1
  simpa [packetObsTrace, plainBytes, initState] using h

/-- C2: Feeding the boundary detector the payload bytes 0xAA, 0xBB, 0xCC,
0xDD with active and advance asserted on four consecutive steps and then
active low with no status inputs, the processed stream's observable trace
is exactly: one silent capture step, then 0xAA (first), 0xBB, 0xCC, 0xDD
(last) — one element per output advance pulse — then the strobe step and
the return to idle, with neither complete_out nor invalid_out ever
asserted. -/
theorem C2_concrete_scenario :
    (states initState (packetDrive (plainBytes [0xAA, 0xBB, 0xCC, 0xDD]) false false
        ++ [idleInput, idleInput])).map proj
      = [⟨false, false, false, false, 0x00, false, false⟩,
         ⟨true, true, true, false, 0xAA, false, false⟩,
         ⟨true, true, false, false, 0xBB, false, false⟩,
         ⟨true, true, false, false, 0xCC, false, false⟩,
         ⟨true, true, false, true, 0xDD, false, false⟩,
         ⟨true, false, false, false, 0xDD, false, false⟩,
         ⟨false, false, false, false, 0xDD, false, false⟩,
         ⟨false, false, false, false, 0xDD, false, false⟩]
    ∧ ((states initState (packetDrive (plainBytes [0xAA, 0xBB, 0xCC, 0xDD]) false false
        ++ [idleInput, idleInput])).map proj).all
        (fun o => !o.complete_out && !o.invalid_out) = true := by
  decide

/-- C5: For every single-element packet (one advance pulse while active,
then active low), the processed stream emits exactly one element, and that
element has both `first` and `last` asserted on the same step. -/
theorem C5_single_element (b : Nat) (c0 v0 endC endV : Bool) :
    packetEmissions [(b, c0, v0)] endC endV
      = [⟨true, true, true, true, b % 256, false, false⟩] := by
  have h := (packet_run initState rfl b c0 v0 [] endC endV).1
  rw [packetEmissions, packetObsTrace, h]
  simp [streamObs, List.filter, initState]

/-- C1: For every packet of N ≥ 1 elements fed with active held true and
one advance pulse per element on consecutive steps, followed by active
going false: the processed stream emits exactly N elements (one per output
advance pulse, in order); `first` is true only on the first emitted element
and `last` only on the last; each input element is re-emitted exactly one
packet-relative advance event later (element i appears on the trace step
registered after input event i+1, i.e. trace index i+1); and no output
advance occurs on the capture step. -/
theorem C1_packet_stream (b0 : Nat) (bs : List Nat) :
    (packetEmissions (plainBytes (b0 :: bs)) false false).length = (b0 :: bs).length
    ∧ (packetEmissions (plainBytes (b0 :: bs)) false false).map (fun o => o.payload)
        = (b0 :: bs).map (fun b => b % 256)
    ∧ (∀ j : Nat,
        ((packetEmissions (plainBytes (b0 :: bs)) false false).getD j obsDefault).first
          = decide (j = 0))
    ∧ (∀ j : Nat,
        ((packetEmissions (plainBytes (b0 :: bs)) false false).getD j obsDefault).last
          = decide (j = bs.length))
    ∧ (∀ i : Nat, i < (b0 :: bs).length →
        ((packetObsTrace (plainBytes (b0 :: bs)) false false).getD (i + 1) obsDefault).out_next
            = true
        ∧ ((packetObsTrace (plainBytes (b0 :: bs)) false false).getD (i + 1) obsDefault).payload
            = ((b0 :: bs).getD i 0) % 256)
    ∧ ((packetObsTrace (plainBytes (b0 :: bs)) false false).getD 0 obsDefault).out_next
        = false := by
  have htrace := packetObsTrace_plain b0 bs false false
  have hfilter : packetEmissions (plainBytes (b0 :: bs)) false false
      = expectedEmissions true (b0 % 256) (plainBytes bs) := by
    rw [packetEmissions, htrace]
    simp [List.filter, streamObs_filter]
  refine ⟨?_, ?_, ?_, ?_, ?_, ?_⟩
  · rw [hfilter, expectedEmissions_length]
    simp [plainBytes]
  · rw [hfilter, expectedEmissions_payloads]
    simp [plainBytes]
  · intro j
    rw [hfilter, expectedEmissions_first]
    simp
  · intro j
    rw [hfilter, expectedEmissions_last]
    simp [plainBytes]
  · intro i hi
    have hlen : i < (plainBytes bs).length + 2 := by
      simp only [plainBytes, List.length_map]
      simp only [List.length_cons] at hi
      omega
    have hle : i ≤ (plainBytes bs).length := by
      simp only [plainBytes, List.length_map]
      simp only [List.length_cons] at hi
      omega
    rw [htrace, List.getD_cons_succ, streamObs_getD _ _ _ _ _ _ _ i hlen]
    rw [obsAt, if_pos hle]
    refine ⟨rfl, ?_⟩
    have : (plainBytes bs).map (fun x => x.1 % 256) = bs.map (fun b => b % 256) := by
      simp [plainBytes]
    rw [this]
    have hmap : ((b0 :: bs).map (fun b => b % 256)).getD i 0
        = ((b0 :: bs).getD i 0) % 256 := getD_map_mod (b0 :: bs) i
    simpa using hmap
  · rw [htrace]
    rfl

/-- Concrete instance of C1 at the packet 0xAA, 0xBB, 0xCC: input element
1 (0xBB) is emitted on trace step 2, one advance event after its own. -/
theorem C1_packet_stream_witness :
    ((packetObsTrace (plainBytes [0xAA, 0xBB, 0xCC]) false false).getD 2 obsDefault).out_next
        = true
    ∧ ((packetObsTrace (plainBytes [0xAA, 0xBB, 0xCC]) false false).getD 2 obsDefault).payload
        = 0xBB := by
  have h := (C1_packet_stream 0xAA [0xBB, 0xCC]).2.2.2.2.1 1 (by decide)
  exact ⟨h.1, by simpa using h.2⟩

theorem foldl_or_any (l : List (Nat × Bool × Bool)) (g : Nat × Bool × Bool → Bool)
    (acc : Bool) :
    l.foldl (fun a x => a || g x) acc = (acc || l.any g) := by
  induction l generalizing acc with
  | nil => simp
  | cons x rest ih => simp [List.foldl_cons, ih, Bool.or_assoc]

theorem packetObsTrace_cons (b0 : Nat) (c0 v0 : Bool)
    (rest : List (Nat × Bool × Bool)) (endC endV : Bool) :
    packetObsTrace ((b0, c0, v0) :: rest) endC endV
      = ⟨false, false, false, false, 0, false, false⟩ ::
          streamObs true (b0 % 256) rest endC endV false false := by
  have h := (packet_run initState rfl b0 c0 v0 rest endC endV).1
  simpa [packetObsTrace, initState] using h

/-- Closed form for every entry of a packet's observable trace: entry 0 is
the silent capture step; entries 1 through N are the emissions; entry N+1
is the strobe step; everything beyond is out of range. -/
theorem packetObsTrace_getD (b0 : Nat) (c0 v0 : Bool)
    (rest : List (Nat × Bool × Bool)) (endC endV : Bool) (j : Nat) :
    (packetObsTrace ((b0, c0, v0) :: rest) endC endV).getD j obsDefault
      = if j = 0 then ⟨false, false, false, false, 0, false, false⟩
        else if j < rest.length + 3 then
          obsAt true (b0 % 256) rest endC endV false false (j - 1)
        else obsDefault := by
  rw [packetObsTrace_cons]
  match j with
  | 0 => rfl
  | (j + 1) =>
      rw [List.getD_cons_succ]
      by_cases hj : j < rest.length + 2
      · rw [streamObs_getD _ _ _ _ _ _ _ j hj]
        simp only [Nat.add_sub_cancel]
        rw [if_neg (Nat.succ_ne_zero j), if_pos (by omega)]
      · rw [List.getD_eq_default _ _ (by rw [streamObs_length]; omega)]
        rw [if_neg (Nat.succ_ne_zero j), if_neg (by omega)]

theorem step_wait_clears (s : DetectorState) (i : DetectorInput)
    (h : s.fsm = .waitForFirstByte) :
    (step s i).out_valid = false ∧ (step s i).out_next = false
    ∧ (step s i).first = false ∧ (step s i).last = false
    ∧ (step s i).complete_out = false ∧ (step s i).invalid_out = false := by
  simp only [step, h]
  split <;> simp

theorem step_strobes_keeps_valid (s : DetectorState) (i : DetectorInput)
    (h : s.fsm = .outputStrobes) :
    (step s i).out_valid = s.out_valid := by
  simp [step, h]

/-- C3 counterexample: the claim, read with the packet's reception
including the step on which its first element arrives, fails.  Feed a
one-byte packet whose `complete_in` is asserted exactly on the step that
presents the first (and only) element — a reception step, with active and
advance both true — and `complete_out` never asserts anywhere in the run:
the WAIT_FOR_FIRST_BYTE state unconditionally clears the sticky
accumulator on that step. -/
theorem C3_counterexample :
    ((packetDrive [(0xAA, true, false)] false false).any
        (fun i => i.in_valid && i.in_next && i.complete_in)) = true
    ∧ (((states initState (packetDrive [(0xAA, true, false)] false false
          ++ [idleInput, idleInput])).map proj).all
        (fun o => !o.complete_out)) = true := by
  decide

/-- C3 (amended): for every packet, `complete_out` (respectively
`invalid_out`) is asserted on exactly one step, the step immediately after
the step on which `last` was asserted, if and only if `complete_in`
(`invalid_in`) was asserted on at least one step of the packet's reception
*after the first element's capture step* — that is, on one of the steps
presenting elements 2..N or on the deactivation step; a status input
asserted on the same step as the packet's first element is discarded.  If
no status input is asserted in that window, the corresponding output never
asserts, and neither output asserts at any other time. -/
theorem C3_status_strobes (b0 : Nat) (c0 v0 : Bool)
    (rest : List (Nat × Bool × Bool)) (endC endV : Bool) :
    ((packetObsTrace ((b0, c0, v0) :: rest) endC endV).getD
        (rest.length + 1) obsDefault).last = true
    ∧ ((packetObsTrace ((b0, c0, v0) :: rest) endC endV).getD
        (rest.length + 2) obsDefault).complete_out
        = (rest.any (fun x => x.2.1) || endC)
    ∧ ((packetObsTrace ((b0, c0, v0) :: rest) endC endV).getD
        (rest.length + 2) obsDefault).invalid_out
        = (rest.any (fun x => x.2.2) || endV)
    ∧ (∀ j : Nat, j ≠ rest.length + 2 →
        ((packetObsTrace ((b0, c0, v0) :: rest) endC endV).getD j obsDefault).complete_out
            = false
        ∧ ((packetObsTrace ((b0, c0, v0) :: rest) endC endV).getD j obsDefault).invalid_out
            = false)
    ∧ (step (run initState (packetDrive ((b0, c0, v0) :: rest) endC endV))
          idleInput).complete_out = false
    ∧ (step (run initState (packetDrive ((b0, c0, v0) :: rest) endC endV))
          idleInput).invalid_out = false := by
  have hrun := (packet_run initState rfl b0 c0 v0 rest endC endV).2
  have hwait : (run initState (packetDrive ((b0, c0, v0) :: rest) endC endV)).fsm
      = .waitForFirstByte := by
    rw [hrun]; exact drainFinal_fsm ..
  refine ⟨?_, ?_, ?_, ?_, ?_, ?_⟩
  · rw [packetObsTrace_getD]
    rw [if_neg (by omega), if_pos (by omega)]
    simp [obsAt]
  · rw [packetObsTrace_getD]
    rw [if_neg (by omega), if_pos (by omega)]
    simp only [Nat.add_sub_cancel, obsAt, if_neg (by omega : ¬ rest.length + 1 ≤ rest.length)]
    simp [foldl_or_any]
  · rw [packetObsTrace_getD]
    rw [if_neg (by omega), if_pos (by omega)]
    simp only [Nat.add_sub_cancel, obsAt, if_neg (by omega : ¬ rest.length + 1 ≤ rest.length)]
    simp [foldl_or_any]
  · intro j hj
    rw [packetObsTrace_getD]
    by_cases h0 : j = 0
    · rw [if_pos h0]; exact ⟨rfl, rfl⟩
    · rw [if_neg h0]
      by_cases h3 : j < rest.length + 3
      · rw [if_pos h3, obsAt, if_pos (by omega)]
        exact ⟨rfl, rfl⟩
      · rw [if_neg h3]
        exact ⟨rfl, rfl⟩
  · exact (step_wait_clears _ idleInput hwait).2.2.2.2.1
  · exact (step_wait_clears _ idleInput hwait).2.2.2.2.2

/-- Concrete instance of C3 (amended): a two-byte packet with `complete_in`
asserted while the second byte arrives strobes `complete_out` exactly once,
on the step after `last`. -/
theorem C3_status_strobes_witness :
    ((packetObsTrace [(0xAA, false, false), (0xBB, true, false)] false false).getD
        3 obsDefault).complete_out = true
    ∧ ((packetObsTrace [(0xAA, false, false), (0xBB, true, false)] false false).getD
        2 obsDefault).complete_out = false := by
  have h := C3_status_strobes 0xAA false false [(0xBB, true, false)] false false
  exact ⟨by simpa using h.2.1, (h.2.2.2.1 2 (by decide)).1⟩

/-- C7: If `active` is asserted and then deasserted without any advance
pulse while active — in fact for any input sequence in which no step has
`valid` and `next` both true — the state machine never leaves
WAIT_FOR_FIRST_BYTE and produces no output: the output stream stays
invalid, no output advance occurs, `first`/`last` stay false, and no
status strobe is emitted. -/
theorem C7_zero_length_packet (inputs : List DetectorInput)
    (h : ∀ i ∈ inputs, i.in_valid = false ∨ i.in_next = false) :
    (∀ s ∈ states initState inputs,
        s.fsm = .waitForFirstByte ∧ s.out_valid = false ∧ s.out_next = false
        ∧ s.first = false ∧ s.last = false
        ∧ s.complete_out = false ∧ s.invalid_out = false)
    ∧ run initState inputs = initState := by
  have hstep : ∀ i : DetectorInput, i.in_valid = false ∨ i.in_next = false →
      step initState i = initState := by
    intro i hi
    have hcond : (i.in_valid && i.in_next) = false := by
      rcases hi with hi | hi <;> simp [hi]
    simp [step, initState, hcond]
  induction inputs with
  | nil => exact ⟨by simp [states], rfl⟩
  | cons i rest ih =>
      have hi := hstep i (h i (List.mem_cons_self i rest))
      have ih' := ih (fun j hj => h j (List.mem_cons_of_mem i hj))
      constructor
      · intro s hs
        rw [states, hi] at hs
        rcases List.mem_cons.mp hs with hs | hs
        · subst hs; exact ⟨rfl, rfl, rfl, rfl, rfl, rfl, rfl⟩
        · exact ih'.1 s hs
      · rw [run, List.foldl_cons, hi]
        exact ih'.2

/-- Concrete instance of C7: active held for two steps with no advance,
then deasserted — the machine stays in idle with no output at all. -/
theorem C7_zero_length_packet_witness :
    run initState [⟨true, false, 0x12, false, false⟩,
                   ⟨true, false, 0x34, false, false⟩, idleInput] = initState := by
  exact (C7_zero_length_packet _ (by decide)).2

/-- C8: In a packet run, the status strobe outputs always strictly follow
the payload output: on any step where `complete_out` or `invalid_out` is
asserted, no output advance is asserted, and every output advance of the
packet happened on a strictly earlier step. -/
theorem C8_strobes_follow_payload (b0 : Nat) (c0 v0 : Bool)
    (rest : List (Nat × Bool × Bool)) (endC endV : Bool) :
    ∀ j : Nat,
      (((packetObsTrace ((b0, c0, v0) :: rest) endC endV).getD j obsDefault).complete_out = true
       ∨ ((packetObsTrace ((b0, c0, v0) :: rest) endC endV).getD j obsDefault).invalid_out = true) →
      ((packetObsTrace ((b0, c0, v0) :: rest) endC endV).getD j obsDefault).out_next = false
      ∧ ∀ k : Nat,
          ((packetObsTrace ((b0, c0, v0) :: rest) endC endV).getD k obsDefault).out_next = true →
          k < j := by
  intro j hj
  have hquiet : ∀ m : Nat, m ≠ rest.length + 2 →
      ((packetObsTrace ((b0, c0, v0) :: rest) endC endV).getD m obsDefault).complete_out = false
      ∧ ((packetObsTrace ((b0, c0, v0) :: rest) endC endV).getD m obsDefault).invalid_out
          = false := by
    intro m hm
    rw [packetObsTrace_getD]
    by_cases h0 : m = 0
    · rw [if_pos h0]; exact ⟨rfl, rfl⟩
    · rw [if_neg h0]
      by_cases h3 : m < rest.length + 3
      · rw [if_pos h3, obsAt, if_pos (by omega)]
        exact ⟨rfl, rfl⟩
      · rw [if_neg h3]; exact ⟨rfl, rfl⟩
  have hJ : j = rest.length + 2 := by
    by_contra hne
    have hq := hquiet j hne
    rcases hj with hj | hj
    · rw [hq.1] at hj; exact Bool.false_ne_true hj
    · rw [hq.2] at hj; exact Bool.false_ne_true hj
  subst hJ
  constructor
  · rw [packetObsTrace_getD, if_neg (by omega), if_pos (by omega)]
    rw [obsAt]
    rw [if_neg (by omega : ¬ rest.length + 2 - 1 ≤ rest.length)]
  · intro k hk
    rw [packetObsTrace_getD] at hk
    by_cases h0 : k = 0
    · rw [if_pos h0] at hk
      exact absurd hk (by simp)
    · rw [if_neg h0] at hk
      by_cases h3 : k < rest.length + 3
      · rw [if_pos h3, obsAt] at hk
        by_cases hle : k - 1 ≤ rest.length
        · omega
        · rw [if_neg hle] at hk
          exact absurd hk (by simp)
      · rw [if_neg h3] at hk
        exact absurd hk (by simp [obsDefault])

/-- Concrete instance of C8: in a two-byte packet whose second byte arrives
with `complete_in` high, the strobe step (index 3) has no output advance,
and the emission at index 1 precedes it. -/
theorem C8_strobes_follow_payload_witness :
    ((packetObsTrace [(0xAA, false, false), (0xBB, true, false)] false false).getD
        3 obsDefault).out_next = false
    ∧ 1 < 3 := by
  have h := C8_strobes_follow_payload 0xAA false false [(0xBB, true, false)] false false
      3 (Or.inl (by decide))
  exact ⟨h.1, h.2 1 (by decide)⟩

/-- C10: For every packet, the processed stream's `valid` stays asserted
from the first emission step through the drain/strobe step that follows the
last element's emission, and is deasserted only on the following step, when
the machine has returned to idle: the OUTPUT_STROBES state leaves
`out_valid` unchanged, and only WAIT_FOR_FIRST_BYTE clears it. -/
theorem C10_valid_through_drain (b0 : Nat) (c0 v0 : Bool)
    (rest : List (Nat × Bool × Bool)) (endC endV : Bool) :
    (∀ j : Nat, 1 ≤ j → j ≤ rest.length + 2 →
        ((packetObsTrace ((b0, c0, v0) :: rest) endC endV).getD j obsDefault).out_valid
          = true)
    ∧ ((packetObsTrace ((b0, c0, v0) :: rest) endC endV).getD
          (rest.length + 1) obsDefault).last = true
    ∧ ((packetObsTrace ((b0, c0, v0) :: rest) endC endV).getD
          (rest.length + 2) obsDefault).out_valid = true
    ∧ ((packetObsTrace ((b0, c0, v0) :: rest) endC endV).getD
          (rest.length + 2) obsDefault).out_next = false
    ∧ (run initState (packetDrive ((b0, c0, v0) :: rest) endC endV)).fsm
        = .waitForFirstByte
    ∧ (∀ i : DetectorInput,
        (step (run initState (packetDrive ((b0, c0, v0) :: rest) endC endV)) i).out_valid
          = false)
    ∧ (∀ s : DetectorState, ∀ i : DetectorInput, s.fsm = .outputStrobes →
        (step s i).out_valid = s.out_valid)
    ∧ (∀ s : DetectorState, ∀ i : DetectorInput, s.fsm = .waitForFirstByte →
        (step s i).out_valid = false) := by
  have hrun := (packet_run initState rfl b0 c0 v0 rest endC endV).2
  have hwait : (run initState (packetDrive ((b0, c0, v0) :: rest) endC endV)).fsm
      = .waitForFirstByte := by
    rw [hrun]; exact drainFinal_fsm ..
  refine ⟨?_, ?_, ?_, ?_, hwait, ?_, ?_, ?_⟩
  · intro j h1 h2
    rw [packetObsTrace_getD, if_neg (by omega), if_pos (by omega), obsAt]
    by_cases hle : j - 1 ≤ rest.length
    · rw [if_pos hle]
    · rw [if_neg hle]
  · rw [packetObsTrace_getD, if_neg (by omega), if_pos (by omega), obsAt,
        if_pos (by omega)]
    simp
  · rw [packetObsTrace_getD, if_neg (by omega), if_pos (by omega), obsAt,
        if_neg (by omega : ¬ rest.length + 2 - 1 ≤ rest.length)]
  · rw [packetObsTrace_getD, if_neg (by omega), if_pos (by omega), obsAt,
        if_neg (by omega : ¬ rest.length + 2 - 1 ≤ rest.length)]
  · intro i
    exact (step_wait_clears _ i hwait).1
  · intro s i hs
    exact step_strobes_keeps_valid s i hs
  · intro s i hs
    exact (step_wait_clears s i hs).1

/-- Concrete instance of C10 at a two-byte packet: `out_valid` is still
true on the drain step (index 3) and false one step later. -/
theorem C10_valid_through_drain_witness :
    ((packetObsTrace [(0xAA, false, false), (0xBB, false, false)] false false).getD
        3 obsDefault).out_valid = true
    ∧ (step (run initState (packetDrive [(0xAA, false, false), (0xBB, false, false)]
          false false)) idleInput).out_valid = false := by
  have h := C10_valid_through_drain 0xAA false false [(0xBB, false, false)] false false
  exact ⟨h.2.2.1, h.2.2.2.2.2.1 idleInput⟩

/-- The RECEIVE_AND_TRANSMIT loop under feeds only (no deactivation): every
element fed so far except the most recent has been re-emitted, in order,
and the most recent sits in the single-slot buffer with the machine still
streaming. -/
theorem recv_feeds (s : DetectorState) (h : s.fsm = .receiveAndTransmit)
    (bs : List (Nat × Bool × Bool)) :
    ((((states s (bs.map (fun x => feedInput x.1 x.2.1 x.2.2))).map proj).filter
        (fun o => o.out_next)).map (fun o => o.payload)
      = (s.buffered_byte :: bs.map (fun x => x.1 % 256)).dropLast)
    ∧ (run s (bs.map (fun x => feedInput x.1 x.2.1 x.2.2))).fsm = .receiveAndTransmit
    ∧ (run s (bs.map (fun x => feedInput x.1 x.2.1 x.2.2))).buffered_byte
        = (bs.map (fun x => x.1 % 256)).getLastD s.buffered_byte := by
  induction bs generalizing s with
  | nil => exact ⟨by simp [states], h, by simp [run]⟩
  | cons x rest ih =>
      have hstep : step s (feedInput x.1 x.2.1 x.2.2) =
          { s with
            out_valid := true, out_next := true,
            out_payload := s.buffered_byte,
            first := s.is_first_byte,
            buffered_byte := x.1 % 256,
            is_first_byte := false,
            buffered_complete := s.buffered_complete || x.2.1,
            buffered_invalid := s.buffered_invalid || x.2.2 } := by
        simp [step, h, feedInput]
      have ih' := ih ({ s with
            out_valid := true, out_next := true,
            out_payload := s.buffered_byte,
            first := s.is_first_byte,
            buffered_byte := x.1 % 256,
            is_first_byte := false,
            buffered_complete := s.buffered_complete || x.2.1,
            buffered_invalid := s.buffered_invalid || x.2.2 }) h
      refine ⟨?_, ?_, ?_⟩
      · simp only [List.map_cons, states, hstep, List.filter, proj]
        rw [List.dropLast_cons₂]
        refine List.cons_eq_cons.mpr ⟨rfl, ?_⟩
        simpa using ih'.1
      · simp only [List.map_cons, run, List.foldl_cons, hstep]
        simpa [run] using ih'.2.1
      · simp only [List.map_cons, run, List.foldl_cons, hstep]
        rw [List.getLastD_cons]
        simpa [run] using ih'.2.2

theorem getLastD_map_mod (bs : List Nat) (b0 : Nat) :
    (bs.map (fun b => b % 256)).getLastD (b0 % 256) = (bs.getLastD b0) % 256 := by
  induction bs generalizing b0 with
  | nil => simp
  | cons x rest ih => rw [List.map_cons, List.getLastD_cons, List.getLastD_cons, ih]

/-- C4: While a packet is active (any number of elements fed, no
deactivation yet), the processed stream is exactly one advance event behind
the unprocessed stream: the machine is still in RECEIVE_AND_TRANSMIT, the
single-slot buffer holds exactly the most recent input element, and the
re-emitted payloads are exactly all fed elements except the most recent,
in order. -/
theorem C4_one_element_behind (b0 : Nat) (bs : List Nat) :
    (run initState ((plainBytes (b0 :: bs)).map (fun x => feedInput x.1 x.2.1 x.2.2))).fsm
        = .receiveAndTransmit
    ∧ (run initState ((plainBytes (b0 :: bs)).map (fun x => feedInput x.1 x.2.1 x.2.2))).buffered_byte
        = ((b0 :: bs).getLastD 0) % 256
    ∧ ((((states initState ((plainBytes (b0 :: bs)).map
            (fun x => feedInput x.1 x.2.1 x.2.2))).map proj).filter
          (fun o => o.out_next)).map (fun o => o.payload))
        = ((b0 :: bs).dropLast).map (fun b => b % 256) := by
  have hstep : step initState (feedInput b0 false false) =
      { initState with
        buffered_byte := b0 % 256,
        is_first_byte := true,
        fsm := .receiveAndTransmit } := by
    simp [step, initState, feedInput]
  have hr := recv_feeds ({ initState with
        buffered_byte := b0 % 256,
        is_first_byte := true,
        fsm := .receiveAndTransmit }) rfl (plainBytes bs)
  have hmap : (plainBytes bs).map (fun x => x.1 % 256) = bs.map (fun b => b % 256) := by
    simp [plainBytes]
  have hcons : (plainBytes (b0 :: bs)).map (fun x => feedInput x.1 x.2.1 x.2.2)
      = feedInput b0 false false ::
          (plainBytes bs).map (fun x => feedInput x.1 x.2.1 x.2.2) := by
    simp [plainBytes]
  refine ⟨?_, ?_, ?_⟩
  · simp only [hcons, run, List.foldl_cons, hstep]
    simpa [run] using hr.2.1
  · simp only [hcons, run, List.foldl_cons, hstep]
    have h2 := hr.2.2
    rw [hmap] at h2
    rw [List.getLastD_cons, ← getLastD_map_mod]
    simpa [run] using h2
  · simp only [hcons, states, List.map_cons, hstep, List.filter_cons]
    have h1 := hr.1
    rw [hmap] at h1
    rw [List.map_dropLast, List.map_cons]
    simpa [proj, plainBytes, List.map_map, initState] using h1

/-- C6: Back-to-back packets, with the second packet's first advance pulse
arriving on the step immediately following the first packet's drain
(OUTPUT_STROBES) step, are each independently detected: the combined
observable trace is exactly the first packet's expected trace followed by
the second packet's expected trace, and the second packet's portion —
including its strobe step — is a function of the second packet's own bytes
and status inputs alone, with the sticky accumulation restarted at false,
so no sticky bit of one packet affects the other's strobe outputs. -/
theorem C6_back_to_back (b1 : Nat) (c1 v1 : Bool) (rest1 : List (Nat × Bool × Bool))
    (e1C e1V : Bool) (b2 : Nat) (c2 v2 : Bool) (rest2 : List (Nat × Bool × Bool))
    (e2C e2V : Bool) :
    (states initState (packetDrive ((b1, c1, v1) :: rest1) e1C e1V
        ++ packetDrive ((b2, c2, v2) :: rest2) e2C e2V)).map proj
      = (⟨false, false, false, false, 0, false, false⟩ ::
           streamObs true (b1 % 256) rest1 e1C e1V false false)
        ++ (⟨false, false, false, false,
              (drainFinal true (b1 % 256) rest1 e1C e1V false false).out_payload,
              false, false⟩ ::
           streamObs true (b2 % 256) rest2 e2C e2V false false) := by
  rw [states_append, List.map_append]
  have h1 := packet_run initState rfl b1 c1 v1 rest1 e1C e1V
  have hwait : (run initState (packetDrive ((b1, c1, v1) :: rest1) e1C e1V)).fsm
      = .waitForFirstByte := by
    rw [h1.2]; exact drainFinal_fsm ..
  have h2 := packet_run _ hwait b2 c2 v2 rest2 e2C e2V
  rw [h1.1, h2.1, h1.2]
  simp [initState]

/-- Attribute identifiers appearing in `USBOutStreamInterface` and its
`bridge_to` method: the stream record's declared fields, the `data`
attribute referenced by `bridge_to`, and the UTMI receive-side signal
names. -/
inductive FieldName where
  | valid
  | next
  | payload
  | data
  | rx_active
  | rx_valid
  | rx_data
deriving DecidableEq, Repr

/-- The fields declared by `USBOutStreamInterface.__init__`
(`stream.py` lines 71-76): exactly `valid`, `next` and `payload` — no
`ready` and no `first`/`last` markers of its own. -/
def USBOutStreamInterface_fields : List FieldName :=
  [.valid, .next, .payload]

/-- The connections generated by `USBOutStreamInterface.bridge_to`
(`stream.py` lines 82-86), as (destination attribute of the stream, source
attribute of the UTMI receive interface) pairs, exactly as written in the
source: `self.valid.eq(utmi_rx.rx_active)`, `self.next.eq(utmi_rx.rx_valid)`,
`self.data.eq(utmi_rx.payload)`. -/
def bridge_to_connections : List (FieldName × FieldName) :=
  [(.valid, .rx_active), (.next, .rx_valid), (.data, .payload)]

/-- Modelled from the spec: the documented inbound adaptation (also the
class's own docstring table, `stream.py` lines 58-62) — the transceiver's
receive-active maps to the stream's `valid` (active), receive-data
(`rx_data`) to `payload`, and receive-valid to `next` (advance). -/
def documented_rx_mapping : List (FieldName × FieldName) :=
  [(.valid, .rx_active), (.payload, .rx_data), (.next, .rx_valid)]

/-- C9: the inbound bridging code contradicts its own documented mapping.
`bridge_to` does connect receive-active to `valid` and receive-valid to
`next`, but the payload connection is written `self.data ← utmi_rx.payload`:
the destination `data` is not a declared field of the stream record (whose
fields are exactly `valid`, `next`, `payload`), the source attribute
`rx_data` is never read, and the documented pair `payload ← rx_data` is
absent from the generated connections — so elaborating `bridge_to` raises
an attribute error instead of bridging the payload. -/
theorem C9_bridge_payload_bug :
    (FieldName.valid, FieldName.rx_active) ∈ bridge_to_connections
    ∧ (FieldName.next, FieldName.rx_valid) ∈ bridge_to_connections
    ∧ (FieldName.payload, FieldName.rx_data) ∉ bridge_to_connections
    ∧ (FieldName.data, FieldName.payload) ∈ bridge_to_connections
    ∧ FieldName.data ∉ USBOutStreamInterface_fields
    ∧ FieldName.rx_data ∉ bridge_to_connections.map (fun p => p.2)
    ∧ (FieldName.payload, FieldName.rx_data) ∈ documented_rx_mapping
    ∧ USBOutStreamInterface_fields = [FieldName.valid, FieldName.next, FieldName.payload] := by
  decide

end Luna
